import Mathlib

/-!
Verification of the `tach` boundary-enforcement tool.

Shallow embedding of the repository's code: the pre-commit hook builder
(`tach/hooks/pre_commit.py`), the project-root discovery logic
(`tach/filesystem/config.py`), and the boundary-enforcement core (module
path resolution, import extraction, the boundary checker and the
bootstrap/codemod engine).  The core's implementation is not among the
repository's files (only its tests are), so those definitions are modelled
from the specification, as their doc comments record.

Filesystem paths and dotted module paths are represented as their lists of
segments (`List String`); file contents are `String`s.
-/

namespace Tach

/-- Modelled from the spec: the tool-name constant `tach.constants.TOOL_NAME`
(the module `tach/constants.py` is not among the repository's files). -/
def TOOL_NAME : String := "tach"

/-- Modelled from the spec: the YAML config base name
`tach.constants.CONFIG_FILE_NAME` (missing `tach/constants.py`). -/
def CONFIG_FILE_NAME : String := "tach"

/-- Modelled from the spec: the TOML config file name
`tach.constants.TOML_CONFIG_FILE_NAME` (missing `tach/constants.py`). -/
def TOML_CONFIG_FILE_NAME : String := "pyproject.toml"

/-- The fixed part of the pre-commit hook template in
`tach/hooks/pre_commit.py`: everything before the final command line. -/
def hookHeader : String :=
  "#!/bin/sh\n# Pre-commit script that validates dependencies locally\nset -e\n\n"

/-- The template of `tach/hooks/pre_commit.py`, with the command substituted
for its placeholder. -/
def hookTemplate (command : String) : String := hookHeader ++ command

/-- Embedding of `build_pre_commit_hook_content` from
`tach/hooks/pre_commit.py`: a non-empty `root` adds a `--root` argument to
the final command line. -/
def build_pre_commit_hook_content (root : String) : String :=
  if root ≠ "" then hookTemplate (TOOL_NAME ++ " check --root " ++ root)
  else hookTemplate (TOOL_NAME ++ " check")

/-- An abstract filesystem, as consulted by `tach/filesystem/config.py`:
which absolute paths exist (`os.path.exists`) and which of them are
directories (`os.path.isdir`).  A path is its list of segments. -/
structure FileSystem where
  pathExists : List String → Bool
  isDir : List String → Bool

/-- A filesystem is well formed when an existing entry's parent is a
directory, as is the case for the real `os.path` functions. -/
def FileSystem.WellFormed (fs : FileSystem) : Prop :=
  ∀ p s, fs.pathExists (p ++ [s]) = true → fs.isDir p = true

/-- Embedding of `get_project_config_yml_path`: the `tach.yml` file in
`root` if it exists, else the `tach.yaml` file if it exists, else nothing
(the Python function returns `""` for nothing). -/
def get_project_config_yml_path (fs : FileSystem) (root : List String) :
    Option (List String) :=
  if fs.pathExists (root ++ [CONFIG_FILE_NAME ++ ".yml"]) then
    some (root ++ [CONFIG_FILE_NAME ++ ".yml"])
  else if fs.pathExists (root ++ [CONFIG_FILE_NAME ++ ".yaml"]) then
    some (root ++ [CONFIG_FILE_NAME ++ ".yaml"])
  else none

/-- The proper ancestors of a path, nearest first: the iteration order of
`pathlib.Path.parents`. -/
def parentsList (p : List String) : List (List String) :=
  ((List.range p.length).reverse).map fun i => p.take i

/-- Embedding of `find_project_config_yml_root`: the path itself when it is
a directory holding a YAML config, else the nearest ancestor holding one. -/
def find_project_config_yml_root (fs : FileSystem) (path : List String) :
    Option (List String) :=
  if fs.isDir path && (get_project_config_yml_path fs path).isSome then some path
  else (parentsList path).find? fun par => (get_project_config_yml_path fs par).isSome

/-- Embedding of `get_toml_config_path`: the TOML config file in `root` if
it exists. -/
def get_toml_config_path (fs : FileSystem) (root : List String) :
    Option (List String) :=
  if fs.pathExists (root ++ [TOML_CONFIG_FILE_NAME]) then
    some (root ++ [TOML_CONFIG_FILE_NAME])
  else none

/-- Embedding of `find_toml_config`: the TOML config file at the path when
the path is a directory holding one, else the one in the nearest ancestor
holding one. -/
def find_toml_config (fs : FileSystem) (path : List String) :
    Option (List String) :=
  if fs.isDir path && (get_toml_config_path fs path).isSome then
    get_toml_config_path fs path
  else
    match (parentsList path).find? (fun par => (get_toml_config_path fs par).isSome) with
    | some par => some (par ++ [TOML_CONFIG_FILE_NAME])
    | none => none

/-- Embedding of `find_project_root`: the YAML-based root when one is
found, else the directory (`os.path.dirname`) of the TOML config found by
upward search, else nothing. -/
def find_project_root (fs : FileSystem) (path : List String) :
    Option (List String) :=
  match find_project_config_yml_root fs path with
  | some r => some r
  | none =>
    match find_toml_config fs path with
    | some t => some t.dropLast
    | none => none

/-- Whether a directory holds a YAML project config (`tach.yml` or
`tach.yaml`). -/
def hasYmlConfig (fs : FileSystem) (d : List String) : Bool :=
  fs.pathExists (d ++ [CONFIG_FILE_NAME ++ ".yml"]) ||
    fs.pathExists (d ++ [CONFIG_FILE_NAME ++ ".yaml"])

/-- Whether a directory holds a TOML project config. -/
def hasTomlConfig (fs : FileSystem) (d : List String) : Bool :=
  fs.pathExists (d ++ [TOML_CONFIG_FILE_NAME])

/-- Root discovery as the claim words it: the nearest directory at or above
the path holding a YAML project config; only when none exists, the nearest
directory at or above the path holding a TOML config; else nothing. -/
def find_project_root_described (fs : FileSystem) (path : List String) :
    Option (List String) :=
  match (path :: parentsList path).find? (fun d => fs.isDir d && hasYmlConfig fs d) with
  | some d => some d
  | none => (path :: parentsList path).find? fun d => fs.isDir d && hasTomlConfig fs d

/-- A tiny concrete filesystem: one project directory `/r` holding a
`tach.yml`. -/
def fsExample : FileSystem where
  pathExists := fun p => p == ["r", "tach.yml"] || p == ["r"]
  isDir := fun p => p == ["r"] || p == []

/-- Modelled from the spec: a public-export mark collected by the Public
Interface Registry (the registry's implementation is not among the
repository's files).  `symbol = none` marks the whole module. -/
structure PublicMark where
  module : List String
  symbol : Option String
deriving DecidableEq

/-- Modelled from the spec: one statically extracted import reference (the
Import Extractor's implementation is not among the repository's files). -/
structure ImportEdge where
  source_file : List String
  source_line : Nat
  target : List String
  imported_symbol : Option String
deriving DecidableEq

/-- Modelled from the spec: one violation record emitted by the Checker
(the Checker's implementation is not among the repository's files). -/
structure CheckResult where
  file : List String
  line : Nat
  message : String
  is_error : Bool
deriving DecidableEq

/-- Modelled from the spec: the Public Interface Registry's data — the
collected public marks, and the facade re-exports promoted to public names
(pairs of facade module and re-exported symbol). -/
structure Registry where
  marks : List PublicMark
  facadeExports : List (List String × String)
deriving DecidableEq

/-- Modelled from the spec: longest-prefix-wins boundary ownership over the
declared boundary set (the Boundary Map Builder's implementation is not
among the repository's files).  The project root `[]` is implicitly a
boundary, so every module path has an owning boundary. -/
def owning_boundary (bs : List (List String)) (p : List String) : List String :=
  bs.foldl (fun acc b => if b.isPrefixOf p && decide (acc.length < b.length) then b else acc) []

/-- Whether some collected public mark covers the edge's target and
imported symbol. -/
def markAllows (reg : Registry) (e : ImportEdge) : Bool :=
  reg.marks.any fun m => m.module == e.target && m.symbol == e.imported_symbol

/-- Whether the whole target module was imported and carries a whole-module
public mark. -/
def wholeModuleAllowed (reg : Registry) (e : ImportEdge) : Bool :=
  e.imported_symbol.isNone &&
    reg.marks.any fun m => m.module == e.target && m.symbol.isNone

/-- Whether the target module is a facade whose re-exports make the
imported symbol public. -/
def facadeAllows (reg : Registry) (e : ImportEdge) : Bool :=
  match e.imported_symbol with
  | some s => reg.facadeExports.contains (e.target, s)
  | none => false

/-- Modelled from the spec: the Checker's per-edge decision (§4.5; the
Checker's implementation is not among the repository's files).  An edge
whose source file and target share an owning boundary is always allowed; a
cross-boundary edge is allowed when a public mark, a whole-module mark or a
facade re-export covers it. -/
def edgeAllowed (bs : List (List String)) (reg : Registry) (e : ImportEdge) : Bool :=
  if owning_boundary bs e.source_file == owning_boundary bs e.target then true
  else markAllows reg e || wholeModuleAllowed reg e || facadeAllows reg e

/-- The violation message names the violating boundary pair. -/
def violationMessage (bs : List (List String)) (e : ImportEdge) : String :=
  "boundary violation: " ++ String.intercalate "." (owning_boundary bs e.source_file) ++
    " cannot reach into " ++ String.intercalate "." (owning_boundary bs e.target)

/-- Modelled from the spec: the Checker's pass over all extracted edges —
each disallowed edge yields one error record at the edge's file and line. -/
def check_edges (bs : List (List String)) (reg : Registry)
    (edges : List ImportEdge) : List CheckResult :=
  edges.filterMap fun e =>
    if edgeAllowed bs reg e then none
    else some ⟨e.source_file, e.source_line, violationMessage bs e, true⟩

/-- Strip the analyzed ecosystem's file extension from a file name. -/
def dropExtension (file : String) : String :=
  if ['.', 'p', 'y'].isSuffixOf file.data then ⟨file.data.take (file.data.length - 3)⟩
  else file

/-- Modelled from the spec: the Module Path Resolver `file_to_module_path`
(its implementation is not among the repository's files).  The input path
is given as its segment list; the output is the dotted module path. -/
def file_to_module_path (segs : List String) : String :=
  let stem := dropExtension (segs.getLastD "")
  if stem = "__init__" then String.intercalate "." segs.dropLast
  else String.intercalate "." (segs.dropLast ++ [stem])

/-- Modelled from the spec: resolution of one `from X import a, b, ...`
statement by the Import Extractor (its implementation is not among the
repository's files).  `fileOracle` answers whether a module path exists as
a file (the Boundary Map / filesystem consultation); each imported name is
a `(name, alias)` pair and yields one edge: a submodule name retargets the
edge to `X.name`, a member name keeps target `X` with the name as imported
symbol.  The alias plays no part. -/
def resolve_from_import (fileOracle : List String → Bool) (x : List String)
    (names : List (String × Option String)) (line : Nat)
    (sourceFile : List String) : List ImportEdge :=
  names.map fun n =>
    if fileOracle (x ++ [n.1]) then ⟨sourceFile, line, x ++ [n.1], none⟩
    else ⟨sourceFile, line, x, some n.1⟩

/-- Modelled from the spec: the fixed boundary-declaration prelude inserted
at the top of a package-init file (`modguard.parsing.boundary`'s
`BOUNDARY_PRELUDE` is not among the repository's files; its exact text is
an implementation convention). -/
def BOUNDARY_PRELUDE : String := "import modguard\nmodguard.Boundary(__name__)\n"

/-- Whether `small` occurs contiguously inside `big`. -/
def containsSub (big small : List Char) : Bool :=
  (List.range (big.length + 1)).any fun i => small.isPrefixOf (big.drop i)

/-- Whether a file's content already holds the boundary prelude. -/
def has_boundary_prelude (content : String) : Bool :=
  containsSub content.data BOUNDARY_PRELUDE.data

/-- Modelled from the spec: step 1 of the bootstrap on one package-init
file — when the prelude is absent, prepend it plus one blank line
separator, preserving the prior content; when present, do nothing. -/
def add_boundary (content : String) : String :=
  if has_boundary_prelude content then content
  else BOUNDARY_PRELUDE ++ "\n" ++ content

/-- Modelled from the spec: a codemod write as a pure text insertion at a
computed point of the original stream (the point given as a character
offset, the resolution of a (line, column) pair). -/
def insert_at (content : String) (pos : Nat) (text : String) : String :=
  ⟨content.data.take pos ++ text.data ++ content.data.drop pos⟩

/-- Modelled from the spec: the state of a project tree the core reads and
rewrites — its package-init files with their contents, the public marks
present in its files, and the import edges its files produce. -/
structure Tree where
  initFiles : List (List String × String)
  marks : List PublicMark
  edges : List ImportEdge
deriving DecidableEq

/-- During bootstrap every package-init directory is a boundary. -/
def tree_boundaries (t : Tree) : List (List String) := t.initFiles.map Prod.fst

/-- The edges of the tree the checker would currently flag (no facade
promotion is in play during bootstrap). -/
def violating_edges (t : Tree) : List ImportEdge :=
  t.edges.filter fun e => !(edgeAllowed (tree_boundaries t) ⟨t.marks, []⟩ e)

/-- Modelled from the spec: one bootstrap pass (§4.6) — insert the boundary
prelude into every package-init file, then synthesize a public mark for the
target and imported symbol of every currently violating edge.  The marks
read in step 2 are the ones present in the tree (empty on a pristine tree:
everything is private at first). -/
def init_step (t : Tree) : Tree where
  initFiles := t.initFiles.map fun f => (f.1, add_boundary f.2)
  marks := t.marks ++ (violating_edges t).map fun e => ⟨e.target, e.imported_symbol⟩
  edges := t.edges

/-- Modelled from the spec: a whole-tree check — every extracted edge is
decided against the bootstrap boundary set and the tree's marks. -/
def check_tree (t : Tree) : List CheckResult :=
  check_edges (tree_boundaries t) ⟨t.marks, []⟩ t.edges

/-- The error raised on an invalid bootstrap root (`ModguardSetupError` in
the tests, `ProjectSetupError` in the spec). -/
inductive SetupError where
  | projectSetupError
deriving DecidableEq

/-- Modelled from the spec: the bootstrap's entry point `init_project` (its
implementation is not among the repository's files).  The root precondition
is checked first; when the root is not an existing directory the error is
returned and the tree is never consulted. -/
def init_project (fs : FileSystem) (root : List String) (t : Tree) :
    Except SetupError Tree :=
  if fs.isDir root then Except.ok (init_step t) else Except.error SetupError.projectSetupError

/-- The boundary set of the two-boundary scenario: a boundary `A` with a
nested boundary `A.sub`. -/
def bsAB : List (List String) := [["A"], ["A", "sub"]]

/-- The five-package scenario of the bootstrap test: five package roots,
two nested sub-packages, and the four cross-package imports. -/
def fivePackageTree : Tree where
  initFiles :=
    [(["package1"], "from package4.subpackage import SubPackageClass\n"),
     (["package2"], "from package5.subpackage import SubPackageClass\n"),
     (["package3"], "from package1.module1 import Package1Class\nfrom package2.module2 import Package2Class\n"),
     (["package4"], "# Mock __init__.py file"),
     (["package5"], "# Mock __init__.py file"),
     (["package4", "subpackage"], ""),
     (["package5", "subpackage"], "")]
  marks := []
  edges :=
    [⟨["package1"], 1, ["package4", "subpackage"], some "SubPackageClass"⟩,
     ⟨["package2"], 1, ["package5", "subpackage"], some "SubPackageClass"⟩,
     ⟨["package3"], 1, ["package1", "module1"], some "Package1Class"⟩,
     ⟨["package3"], 2, ["package2", "module2"], some "Package2Class"⟩]

/-! ## Helper lemmas -/

/-- Two pointwise-equal predicates find the same element. -/
theorem find?_congr_of_eq {α : Type} {p q : α → Bool} (l : List α)
    (h : ∀ a ∈ l, p a = q a) : l.find? p = l.find? q := by
  induction l with
  | nil => rfl
  | cons a l ih =>
    rw [List.find?_cons, List.find?_cons, h a (List.mem_cons_self a l)]
    cases hq : q a
    · exact ih fun b hb => h b (List.mem_cons_of_mem a hb)
    · rfl

/-- The YAML lookup succeeds exactly on directories holding a YAML config. -/
theorem yml_lookup_isSome (fs : FileSystem) (d : List String) :
    (get_project_config_yml_path fs d).isSome = hasYmlConfig fs d := by
  unfold get_project_config_yml_path hasYmlConfig
  cases h1 : fs.pathExists (d ++ [CONFIG_FILE_NAME ++ ".yml"]) <;>
    cases h2 : fs.pathExists (d ++ [CONFIG_FILE_NAME ++ ".yaml"]) <;> simp [h1, h2]

/-- The TOML lookup succeeds exactly on directories holding a TOML config. -/
theorem toml_lookup_isSome (fs : FileSystem) (d : List String) :
    (get_toml_config_path fs d).isSome = hasTomlConfig fs d := by
  unfold get_toml_config_path hasTomlConfig
  cases h1 : fs.pathExists (d ++ [TOML_CONFIG_FILE_NAME]) <;> simp [h1]

/-- A successful TOML lookup returns the TOML file of the directory. -/
theorem toml_lookup_eq (fs : FileSystem) (d : List String)
    (h : hasTomlConfig fs d = true) :
    get_toml_config_path fs d = some (d ++ [TOML_CONFIG_FILE_NAME]) := by
  unfold get_toml_config_path
  unfold hasTomlConfig at h
  simp [h]

/-- In a well-formed filesystem, a directory holding a YAML config is a
directory. -/
theorem isDir_of_hasYml {fs : FileSystem} (hWF : fs.WellFormed)
    {d : List String} (h : hasYmlConfig fs d = true) : fs.isDir d = true := by
  rcases Bool.or_eq_true_iff.mp h with h1 | h1
  · exact hWF d _ h1
  · exact hWF d _ h1

/-- In a well-formed filesystem, a directory holding a TOML config is a
directory. -/
theorem isDir_of_hasToml {fs : FileSystem} (hWF : fs.WellFormed)
    {d : List String} (h : hasTomlConfig fs d = true) : fs.isDir d = true :=
  hWF d _ h

/-- The checker pass is the map of the violation record over the disallowed
edges. -/
theorem check_edges_eq (bs : List (List String)) (reg : Registry)
    (edges : List ImportEdge) :
    check_edges bs reg edges =
      (edges.filter fun e => !(edgeAllowed bs reg e)).map
        fun e => ⟨e.source_file, e.source_line, violationMessage bs e, true⟩ := by
  induction edges with
  | nil => rfl
  | cons e es ih =>
    unfold check_edges at ih ⊢
    rw [List.filterMap_cons, List.filter_cons]
    cases he : edgeAllowed bs reg e <;> simp [he, ih]

/-- Allowance is monotone under adding marks. -/
theorem edgeAllowed_append_marks {bs : List (List String)} {ms : List PublicMark}
    (ms2 : List PublicMark) {fx : List (List String × String)} {e : ImportEdge}
    (h : edgeAllowed bs ⟨ms, fx⟩ e = true) :
    edgeAllowed bs ⟨ms ++ ms2, fx⟩ e = true := by
  unfold edgeAllowed at h ⊢
  split at h
  · simp_all
  · rename_i hb
    rw [if_neg hb]
    rcases Bool.or_eq_true_iff.mp h with h1 | h1
    · rcases Bool.or_eq_true_iff.mp h1 with h2 | h2
      · unfold markAllows at h2 ⊢
        simp only [List.any_append, h2, Bool.true_or, Bool.true_or]
      · unfold wholeModuleAllowed at h2 ⊢
        rcases Bool.and_eq_true_iff.mp h2 with ⟨h3, h4⟩
        simp only [h3, List.any_append, h4, Bool.true_and, Bool.true_or,
          Bool.or_true, Bool.true_or]
    · simp [facadeAllows] at h1 ⊢
      simp [h1]

/-- An edge whose exact target and symbol carry a mark is allowed. -/
theorem edgeAllowed_of_mark {bs : List (List String)} {ms : List PublicMark}
    {fx : List (List String × String)} {e : ImportEdge}
    (h : (⟨e.target, e.imported_symbol⟩ : PublicMark) ∈ ms) :
    edgeAllowed bs ⟨ms, fx⟩ e = true := by
  unfold edgeAllowed
  split
  · rfl
  · apply Bool.or_eq_true_iff.mpr
    left
    apply Bool.or_eq_true_iff.mpr
    left
    unfold markAllows
    exact List.any_eq_true.mpr ⟨_, h, by simp⟩

/-- The bootstrap pass keeps the boundary set. -/
theorem tree_boundaries_init_step (t : Tree) :
    tree_boundaries (init_step t) = tree_boundaries t := by
  unfold tree_boundaries init_step
  rw [List.map_map]
  rfl

/-- After one bootstrap pass every extracted edge of the tree is allowed. -/
theorem allowed_after_init (t : Tree) :
    ∀ e ∈ t.edges,
      edgeAllowed (tree_boundaries (init_step t)) ⟨(init_step t).marks, []⟩ e = true := by
  intro e he
  rw [tree_boundaries_init_step]
  show edgeAllowed (tree_boundaries t)
    ⟨t.marks ++ (violating_edges t).map fun e => ⟨e.target, e.imported_symbol⟩, []⟩ e = true
  cases h : edgeAllowed (tree_boundaries t) ⟨t.marks, []⟩ e
  · apply edgeAllowed_of_mark
    apply List.mem_append_right
    exact List.mem_map_of_mem _ (List.mem_filter.mpr ⟨he, by simp [h]⟩)
  · exact edgeAllowed_append_marks _ h

/-- Trees agreeing on every field are equal. -/
theorem tree_eq_of_fields {a b : Tree} (h1 : a.initFiles = b.initFiles)
    (h2 : a.marks = b.marks) (h3 : a.edges = b.edges) : a = b := by
  cases a
  cases b
  simp_all

/-- A list is contained in any list it starts. -/
theorem containsSub_of_isPrefix {l b : List Char} (h : l <+: b) :
    containsSub b l = true := by
  unfold containsSub
  apply List.any_eq_true.mpr
  refine ⟨0, by simp, ?_⟩
  simpa [List.isPrefixOf_iff_prefix] using h

/-- Inserting the boundary prelude is idempotent. -/
theorem add_boundary_idem (c : String) :
    add_boundary (add_boundary c) = add_boundary c := by
  cases h : has_boundary_prelude c
  · have hpre : has_boundary_prelude (add_boundary c) = true := by
      unfold add_boundary
      rw [h]
      simp only [Bool.false_eq_true, if_false]
      unfold has_boundary_prelude
      apply containsSub_of_isPrefix
      rw [String.data_append, String.data_append, List.append_assoc]
      exact List.prefix_append _ _
    unfold add_boundary at hpre ⊢
    rw [h] at hpre ⊢
    simp only [Bool.false_eq_true, if_false] at hpre ⊢
    rw [hpre]
    simp
  · unfold add_boundary
    rw [h]
    simp [h]

/-- The character stream of an insertion: the prior stream's head, the
inserted text, the prior stream's tail. -/
theorem insert_at_data (c : String) (p : Nat) (t : String) :
    (insert_at c p t).data = c.data.take p ++ (t.data ++ c.data.drop p) := by
  unfold insert_at
  exact List.append_assoc _ _ _

/-- The example filesystem is well formed. -/
theorem fsExample_wf : fsExample.WellFormed := by
  intro p s h
  simp only [fsExample, Bool.or_eq_true_iff, beq_iff_eq] at h
  rcases h with h | h
  · have hp : p = ["r"] := by
      have hd := congrArg List.dropLast h
      simpa using hd
    rw [hp]
    rfl
  · have hp : p = [] := by
      have hd := congrArg List.dropLast h
      simpa using hd
    rw [hp]
    rfl

/-! ## Claim theorems -/

/-- C1: an edge whose source file and target module share an owning boundary
is always allowed; a cross-boundary edge is allowed iff a public mark of the
target covers the imported symbol, or (for whole-module imports) the target
carries a symbol-less mark, or the target is a facade whose re-exports make
the symbol public; every disallowed edge yields exactly one result carrying
the edge's file and line with `is_error = true`. -/
theorem checker_edge_decision :
    (∀ (bs : List (List String)) (reg : Registry) (e : ImportEdge),
      owning_boundary bs e.source_file = owning_boundary bs e.target →
      edgeAllowed bs reg e = true)
    ∧ (∀ (bs : List (List String)) (reg : Registry) (e : ImportEdge),
      owning_boundary bs e.source_file ≠ owning_boundary bs e.target →
      (edgeAllowed bs reg e = true ↔
        (∃ m ∈ reg.marks, m.module = e.target ∧ m.symbol = e.imported_symbol)
        ∨ (e.imported_symbol = none ∧
            ∃ m ∈ reg.marks, m.module = e.target ∧ m.symbol = none)
        ∨ (∃ s, e.imported_symbol = some s ∧ (e.target, s) ∈ reg.facadeExports)))
    ∧ (∀ (bs : List (List String)) (reg : Registry) (edges : List ImportEdge),
      check_edges bs reg edges =
        (edges.filter fun e => !(edgeAllowed bs reg e)).map
          fun e => ⟨e.source_file, e.source_line, violationMessage bs e, true⟩) := by
  refine ⟨?_, ?_, check_edges_eq⟩
  · intro bs reg e h
    simp [edgeAllowed, h]
  · intro bs reg e h
    have hb : (owning_boundary bs e.source_file == owning_boundary bs e.target) = false := by
      simpa using h
    unfold edgeAllowed
    rw [hb]
    simp only [Bool.false_eq_true, if_false]
    cases hs : e.imported_symbol with
    | none =>
      simp [markAllows, wholeModuleAllowed, facadeAllows, hs, List.any_eq_true,
        Option.isNone_iff_eq_none, and_assoc]
    | some s =>
      simp [markAllows, wholeModuleAllowed, facadeAllows, hs, List.any_eq_true]

/-- C2 as stated is false: with boundaries `A` and `A.sub` and no marks, an
an import from the file `A.sub.x` of the child boundary to the symbol `helper`
of `A.util`, an own-level file of the parent boundary `A`, is denied (the
edge is cross-boundary and unmarked), and the checker emits an error for
it. -/
theorem child_to_parent_import_denied :
    edgeAllowed bsAB ⟨[], []⟩ ⟨["A", "sub", "x"], 3, ["A", "util"], some "helper"⟩ = false
    ∧ (check_edges bsAB ⟨[], []⟩
        [⟨["A", "sub", "x"], 3, ["A", "util"], some "helper"⟩]).length = 1 := by
  decide

/-- C2 amended: with boundaries `A` and `A.sub`, an import from a file in
`A` to an unmarked symbol in `A.sub` is reported as a violation; an import
from a file in `A.sub` to an unmarked symbol in `A`'s own-level files is
likewise cross-boundary and reported as a violation; an import from a file
outside `A` to a symbol in `A` carrying a public mark is allowed. -/
theorem nested_boundary_scenario (l : Nat) (s : String) :
    check_edges bsAB ⟨[], []⟩ [⟨["A", "main"], l, ["A", "sub", "mod"], some s⟩] =
      [⟨["A", "main"], l,
        violationMessage bsAB ⟨["A", "main"], l, ["A", "sub", "mod"], some s⟩, true⟩]
    ∧ check_edges bsAB ⟨[], []⟩ [⟨["A", "sub", "x"], l, ["A", "util"], some s⟩] =
      [⟨["A", "sub", "x"], l,
        violationMessage bsAB ⟨["A", "sub", "x"], l, ["A", "util"], some s⟩, true⟩]
    ∧ edgeAllowed bsAB ⟨[⟨["A", "api"], some s⟩], []⟩
        ⟨["B", "y"], l, ["A", "api"], some s⟩ = true := by
  refine ⟨?_, ?_, ?_⟩
  · have hb : ¬(owning_boundary bsAB ["A", "main"] =
        owning_boundary bsAB ["A", "sub", "mod"]) := by decide
    simp [check_edges, edgeAllowed, hb, markAllows, wholeModuleAllowed, facadeAllows]
  · have hb : ¬(owning_boundary bsAB ["A", "sub", "x"] =
        owning_boundary bsAB ["A", "util"]) := by decide
    simp [check_edges, edgeAllowed, hb, markAllows, wholeModuleAllowed, facadeAllows]
  · have hb : (owning_boundary bsAB ["B", "y"] ==
        owning_boundary bsAB ["A", "api"]) = false := by decide
    simp [edgeAllowed, hb, markAllows]

/-- C5: the resolver strips the file extension; an init file collapses to
its directory's dotted path (empty at the root), any other file appends its
stripped name to the directory's dotted path. -/
theorem file_to_module_path_resolves :
    (∀ (dirs : List String) (file : String),
      file_to_module_path (dirs ++ [file]) =
        if dropExtension file = "__init__" then String.intercalate "." dirs
        else String.intercalate "." (dirs ++ [dropExtension file]))
    ∧ file_to_module_path ["__init__.py"] = ""
    ∧ file_to_module_path ["domain_one", "__init__.py"] = "domain_one"
    ∧ file_to_module_path ["domain_one", "interface.py"] = "domain_one.interface" := by
  refine ⟨?_, by decide, by decide, by decide⟩
  intro dirs file
  simp [file_to_module_path, List.getLastD_concat, List.dropLast_concat]

/-- C6: `from X import name` resolution consults the file oracle for
`X.name`: a submodule retargets the edge to `X.name`, a member keeps target
`X` with `name` as imported symbol; one edge arises per imported name and
the alias plays no part in resolution. -/
theorem from_import_resolution :
    (∀ (oracle : List String → Bool) (x : List String)
      (names : List (String × Option String)) (line : Nat) (src : List String),
      (resolve_from_import oracle x names line src).length = names.length
      ∧ resolve_from_import oracle x names line src =
          names.map (fun n =>
            if oracle (x ++ [n.1]) then ⟨src, line, x ++ [n.1], none⟩
            else ⟨src, line, x, some n.1⟩)
      ∧ resolve_from_import oracle x names line src =
          resolve_from_import oracle x (names.map fun n => (n.1, none)) line src)
    ∧ resolve_from_import (fun p => p == ["a", "sub"]) ["a"]
        [("sub", some "alias_name"), ("member", none)] 1 ["f"] =
        [⟨["f"], 1, ["a", "sub"], none⟩, ⟨["f"], 1, ["a"], some "member"⟩] := by
  refine ⟨?_, by decide⟩
  intro oracle x names line src
  refine ⟨by simp [resolve_from_import], rfl, ?_⟩
  unfold resolve_from_import
  rw [List.map_map]
  rfl

/-- C8: the bootstrap checks its root precondition first — on a root that
is not an existing directory it returns `ProjectSetupError` without
consulting the tree at all (its result does not depend on the tree), and on
a valid root it performs the bootstrap pass. -/
theorem init_requires_valid_root :
    ∀ (fs : FileSystem) (root : List String) (t u : Tree),
      (fs.isDir root = false →
        init_project fs root t = Except.error SetupError.projectSetupError
        ∧ init_project fs root t = init_project fs root u)
      ∧ (fs.isDir root = true → init_project fs root t = Except.ok (init_step t)) := by
  intro fs root t u
  constructor <;> intro h <;> simp [init_project, h]

/-- C3: a check run immediately after a completed bootstrap pass reports
zero violations — every edge the pass observed is now allowed — and in
particular the five-package scenario checks clean after bootstrap. -/
theorem check_after_init_clean :
    (∀ t : Tree, check_tree (init_step t) = [])
    ∧ check_tree (init_step fivePackageTree) = [] := by
  refine ⟨?_, by decide⟩
  intro t
  unfold check_tree
  rw [check_edges_eq]
  have hnil : ((init_step t).edges.filter
      fun e => !(edgeAllowed (tree_boundaries (init_step t)) ⟨(init_step t).marks, []⟩ e)) = [] := by
    apply List.filter_eq_nil_iff.mpr
    intro e he
    have he' : e ∈ t.edges := he
    simp [allowed_after_init t e he']
  rw [hnil]
  rfl

/-- C4: the bootstrap is idempotent — a second pass over an already
bootstrapped tree changes nothing — and a package-init file already holding
the boundary prelude is left completely unchanged by the prelude step. -/
theorem init_idempotent :
    (∀ t : Tree, init_step (init_step t) = init_step t)
    ∧ ∀ c : String, has_boundary_prelude c = true → add_boundary c = c := by
  constructor
  · intro t
    have hviol : violating_edges (init_step t) = [] := by
      apply List.filter_eq_nil_iff.mpr
      intro e he
      have he' : e ∈ t.edges := he
      simp [allowed_after_init t e he']
    apply tree_eq_of_fields
    · show ((init_step t).initFiles.map fun f => (f.1, add_boundary f.2)) = _
      show (t.initFiles.map fun f => (f.1, add_boundary f.2)).map
        (fun f => (f.1, add_boundary f.2)) = _
      rw [List.map_map]
      exact List.map_congr_left fun f _ => by
        simp [Function.comp, add_boundary_idem]
    · show (init_step t).marks ++ (violating_edges (init_step t)).map _ = _
      rw [hviol]
      simp
    · rfl
  · intro c h
    simp [add_boundary, h]

/-- C7: the prelude step on a file lacking the prelude produces the prelude,
one blank-line separator, then the prior content unchanged; a codemod
insertion at an offset leaves every character before the point and every
character after the inserted text exactly as in the original; the export
marker insertion of the bootstrap test preserves the class text verbatim. -/
theorem codemod_preserves_content (c : String) (p : Nat) (t : String)
    (h : p ≤ c.data.length) :
    (has_boundary_prelude c = false →
      add_boundary c = BOUNDARY_PRELUDE ++ "\n" ++ c)
    ∧ (insert_at c p t).data.take p = c.data.take p
    ∧ (insert_at c p t).data.drop (p + t.data.length) = c.data.drop p
    ∧ insert_at (insert_at "class Package1Class:\n    pass\n" 0 "@modguard.public\n")
        0 "import modguard\n" =
        "import modguard\n@modguard.public\nclass Package1Class:\n    pass\n" := by
  refine ⟨fun hnot => by simp [add_boundary, hnot], ?_, ?_, by decide⟩
  · rw [insert_at_data]
    have hlen : (c.data.take p).length = p := by
      rw [List.length_take]
      exact Nat.min_eq_left h
    rw [List.take_left' hlen]
  · rw [insert_at_data, ← List.append_assoc]
    have hlen : ((c.data.take p) ++ t.data).length = p + t.data.length := by
      rw [List.length_append, List.length_take, Nat.min_eq_left h]
    rw [List.drop_left' hlen]

/-- C7 witness: the frame and insertion properties at a concrete file
content, offset and text. -/
theorem codemod_preserves_content_witness :
    (has_boundary_prelude "x = 1\n" = false →
      add_boundary "x = 1\n" = BOUNDARY_PRELUDE ++ "\n" ++ "x = 1\n")
    ∧ (insert_at "x = 1\n" 2 "y").data.take 2 = "x = 1\n".data.take 2
    ∧ (insert_at "x = 1\n" 2 "y").data.drop (2 + "y".data.length) = "x = 1\n".data.drop 2
    ∧ insert_at (insert_at "class Package1Class:\n    pass\n" 0 "@modguard.public\n")
        0 "import modguard\n" =
        "import modguard\n@modguard.public\nclass Package1Class:\n    pass\n" :=
  codemod_preserves_content "x = 1\n" 2 "y" (by decide)

/-- C9: on a well-formed filesystem, `find_project_root` returns the nearest
directory at or above the given path holding a YAML project config, falls
back to the directory holding the nearest TOML config found by upward
search only when no YAML one exists, and returns nothing when neither
exists. -/
theorem find_project_root_correct (fs : FileSystem) (path : List String)
    (hWF : fs.WellFormed) :
    find_project_root fs path = find_project_root_described fs path := by
  have hyml : ((parentsList path).find? fun d => (get_project_config_yml_path fs d).isSome) =
      ((parentsList path).find? fun d => fs.isDir d && hasYmlConfig fs d) := by
    apply find?_congr_of_eq
    intro d _
    rw [yml_lookup_isSome]
    cases hy : hasYmlConfig fs d
    · simp
    · simp [isDir_of_hasYml hWF hy]
  have htoml : ((parentsList path).find? fun d => (get_toml_config_path fs d).isSome) =
      ((parentsList path).find? fun d => fs.isDir d && hasTomlConfig fs d) := by
    apply find?_congr_of_eq
    intro d _
    rw [toml_lookup_isSome]
    cases hy : hasTomlConfig fs d
    · simp
    · simp [isDir_of_hasToml hWF hy]
  unfold find_project_root find_project_config_yml_root find_project_root_described
  cases h1 : fs.isDir path && hasYmlConfig fs path
  · rw [if_neg (by rw [yml_lookup_isSome]; simp [h1])]
    rw [List.find?_cons_of_neg _ (by simp [h1])]
    rw [hyml]
    cases h2 : (parentsList path).find? fun d => fs.isDir d && hasYmlConfig fs d with
    | some d => rfl
    | none =>
      unfold find_toml_config
      cases h3 : fs.isDir path && hasTomlConfig fs path
      · rw [if_neg (by rw [toml_lookup_isSome]; simp [h3])]
        rw [List.find?_cons_of_neg _ (by simp [h3])]
        rw [htoml]
        cases h4 : (parentsList path).find? fun d => fs.isDir d && hasTomlConfig fs d with
        | some d => simp [List.dropLast_concat]
        | none => rfl
      · rw [if_pos (by rw [toml_lookup_isSome]; simp [h3])]
        rw [List.find?_cons_of_pos _ (by simp [h3])]
        rw [toml_lookup_eq fs path (Bool.and_eq_true_iff.mp h3).2]
        simp [List.dropLast_concat]
  · rw [if_pos (by rw [yml_lookup_isSome]; simp [h1])]
    rw [List.find?_cons_of_pos _ (by simp [h1])]

/-- C9 witness: root discovery agrees with its description on a concrete
well-formed filesystem holding one `tach.yml`. -/
theorem find_project_root_correct_witness :
    find_project_root fsExample ["r", "sub"] =
      find_project_root_described fsExample ["r", "sub"] :=
  find_project_root_correct fsExample ["r", "sub"] fsExample_wf

/-- C10: the pre-commit hook content is the fixed shell template — starting
with a `#!/bin/sh` line and containing `set -e` — whose final command line
is `tach check --root <root>` for a non-empty root and exactly `tach check`
for the empty root; nothing else varies with the input. -/
theorem pre_commit_hook_varies_only_in_command (root : String) :
    build_pre_commit_hook_content root =
      hookHeader ++ (if root = "" then TOOL_NAME ++ " check"
        else TOOL_NAME ++ " check --root " ++ root)
    ∧ "#!/bin/sh".data <+: (build_pre_commit_hook_content root).data
    ∧ "set -e".data <:+: (build_pre_commit_hook_content root).data := by
  have hmain : build_pre_commit_hook_content root =
      hookHeader ++ (if root = "" then TOOL_NAME ++ " check"
        else TOOL_NAME ++ " check --root " ++ root) := by
    by_cases hr : root = "" <;> simp [build_pre_commit_hook_content, hookTemplate, hr]
  refine ⟨hmain, ?_, ?_⟩
  · rw [hmain, String.data_append]
    exact List.IsPrefix.trans (by decide) (List.prefix_append _ _)
  · rw [hmain, String.data_append]
    refine List.IsInfix.trans ?_ (List.IsPrefix.isInfix (List.prefix_append _ _))
    exact ⟨"#!/bin/sh\n# Pre-commit script that validates dependencies locally\n".data,
      "\n\n".data, by decide⟩

end Tach
